import Mathlib

/-!
Verification of the semantic-code-mcp core against its specification.

The definitions below are a shallow embedding of the TypeScript source:
strings are `String`/`List Char`, JavaScript numbers that carry scores are
`ℚ`, fallible functions return `Except`, and external collaborators
(tree-sitter, LanceDB's ANN engine, the embedder, MD5) enter as explicit
oracle inputs. Each definition mirrors one function of the source, named
after it.
-/

namespace SCMP

/-! ## Filter builder (src/search/filter-builder.ts) -/

/-- Characters admitted by the chunk-id alphabet `[a-zA-Z0-9_-]`. -/
def safeChar (c : Char) : Bool := c.isAlphanum || c == '_' || c == '-'

/-- Characters admitted by `SAFE_PATTERN = ^[a-zA-Z0-9_\-%]+$`. -/
def safePctChar (c : Char) : Bool := safeChar c || c == '%'

/-- Error kind raised by the filter builder (`InvalidFilterError`). -/
inductive FilterError where
  | invalidFilter (msg : String)
deriving DecidableEq

/-- Embeds `validateFilterPattern`: length cap 500 (`MAX_FILTER_VALUE_LENGTH`)
and the whitelist regex `^[a-zA-Z0-9_\-%]+$` (nonempty, every char safe). -/
def validateFilterPattern (pattern : String) : Bool :=
  if pattern.length > 500 then false
  else decide (0 < pattern.length) && pattern.data.all safePctChar

/-- The `.replace(/[\\/]/g, '_')` step. -/
def replacePathSeps (l : List Char) : List Char :=
  l.map (fun c => if c == '\\' || c == '/' then '_' else c)

/-- The `.replace(/\./g, '_')` step. -/
def replaceDots (l : List Char) : List Char :=
  l.map (fun c => if c == '.' then '_' else c)

/-- The `.replace(/[^a-zA-Z0-9_-]/g, '_')` step. -/
def replaceUnsafe (l : List Char) : List Char :=
  l.map (fun c => if safeChar c then c else '_')

/-- The collapsing part of `sanitizePathPattern`: separators, dots and
remaining unsafe characters all become `_`. -/
def sanitizePathCore (path : String) : String :=
  String.mk (replaceUnsafe (replaceDots (replacePathSeps path.data)))

/-- Embeds `sanitizePathPattern`: collapse separators, dots and remaining
unsafe characters to `_`, then validate (throwing `InvalidFilterError`). -/
def sanitizePathPattern (path : String) : Except FilterError String :=
  if validateFilterPattern (sanitizePathCore path) then .ok (sanitizePathCore path)
  else .error (.invalidFilter "Invalid path pattern: contains disallowed characters")

/-- The `.replace(/\*\*/g, '%')` step: each `**` pair becomes one `%`. -/
def replaceDoubleStar : List Char → List Char
  | [] => []
  | [c] => [c]
  | c₁ :: c₂ :: rest =>
    if c₁ == '*' && c₂ == '*' then '%' :: replaceDoubleStar rest
    else c₁ :: replaceDoubleStar (c₂ :: rest)

/-- The `.replace(/\*/g, '%')` step. -/
def replaceSingleStar (l : List Char) : List Char :=
  l.map (fun c => if c == '*' then '%' else c)

/-- The `.replace(/\?/g, '_')` step. -/
def replaceQuestion (l : List Char) : List Char :=
  l.map (fun c => if c == '?' then '_' else c)

/-- The `.replace(/[^a-zA-Z0-9_%-]/g, '_')` step (keeps `%` for LIKE). -/
def replaceUnsafeKeepPct (l : List Char) : List Char :=
  l.map (fun c => if safePctChar c then c else '_')

/-- The converting part of `sanitizeGlobPattern`, in the source's order of
replaces: `**`→`%`, `*`→`%`, `?`→`_`, separators to `_`, dots to `_`,
remaining unsafe characters to `_` (keeping `%`). -/
def sanitizeGlobCore (pattern : String) : String :=
  String.mk (replaceUnsafeKeepPct (replaceDots (replacePathSeps
    (replaceQuestion (replaceSingleStar (replaceDoubleStar pattern.data))))))

/-- Embeds `sanitizeGlobPattern`: convert the glob, then validate. -/
def sanitizeGlobPattern (pattern : String) : Except FilterError String :=
  if validateFilterPattern (sanitizeGlobCore pattern) then .ok (sanitizeGlobCore pattern)
  else .error (.invalidFilter "Invalid file pattern: contains disallowed characters")

/-- A filter condition keeping its interpolated token explicit, so theorems
can speak about the token that reaches the SQL string. -/
inductive FilterCond where
  | pathLike (token : String)
  | langEq (token : String)
  | filePatternLike (token : String)
deriving DecidableEq

/-- Returns the interpolated token of a condition. -/
def FilterCond.token : FilterCond → String
  | .pathLike t => t
  | .langEq t => t
  | .filePatternLike t => t

/-- Renders a condition to its SQL text, exactly as the source interpolates. -/
def FilterCond.toSql : FilterCond → String
  | .pathLike t => "id LIKE '" ++ t ++ "%'"
  | .langEq t => "language = '" ++ t ++ "'"
  | .filePatternLike t => "id LIKE '%" ++ t ++ "'"

/-- Embeds `buildPathLikeCondition`. -/
def buildPathLikeCondition (pathPattern : String) : Except FilterError FilterCond :=
  (sanitizePathPattern pathPattern).map .pathLike

/-- Embeds `buildLanguageCondition`: language must match `^[a-z]+$`. -/
def buildLanguageCondition (language : String) : Except FilterError FilterCond :=
  if decide (0 < language.length) && language.data.all Char.isLower then
    .ok (.langEq language)
  else .error (.invalidFilter ("Invalid language name: " ++ language))

/-- Embeds `buildFilePatternCondition`. -/
def buildFilePatternCondition (pattern : String) : Except FilterError FilterCond :=
  (sanitizeGlobPattern pattern).map .filePatternLike

/-- The `EXTENSION_TO_LANGUAGE` table. -/
def EXTENSION_TO_LANGUAGE : List (String × String) :=
  [(".ts", "typescript"), (".tsx", "typescript"),
   (".js", "javascript"), (".jsx", "javascript"),
   (".mjs", "javascript"), (".cjs", "javascript"),
   (".py", "python"), (".pyw", "python"),
   (".go", "go"), (".rs", "rust")]

/-- Embeds the `filePattern.match(/^\*(\.[a-z]+)$/i)` test: a lone `*.,` then
letters; returns the lowercased extension including the dot. -/
def matchExtPattern (p : String) : Option String :=
  match p.data with
  | '*' :: '.' :: rest =>
    if decide (0 < rest.length) && rest.all Char.isAlpha then
      some (String.mk ('.' :: rest.map Char.toLower))
    else none
  | _ => none

/-- Input of `buildSafeFilter` (`FilterOptions`). -/
structure FilterOptions where
  path : Option String := none
  filePattern : Option String := none

/-- The `if (options.path)` block of `buildSafeFilter`. JavaScript
truthiness makes an empty string behave like an absent option. -/
def pathConds (path : Option String) : Except FilterError (List FilterCond) :=
  match path with
  | some p =>
    if p == "" then pure []
    else do
      let c ← buildPathLikeCondition p
      pure [c]
  | none => pure []

/-- The `if (options.filePattern)` block of `buildSafeFilter`: a
bare-extension glob with a known language becomes a language equality, an
unknown bare extension adds no condition at all, and any other glob becomes
an id LIKE condition. -/
def filePatternConds (filePattern : Option String) : Except FilterError (List FilterCond) :=
  match filePattern with
  | some fp =>
    if fp == "" then pure []
    else
      match matchExtPattern fp with
      | some ext =>
        match List.lookup ext EXTENSION_TO_LANGUAGE with
        | some lang => do
          let c ← buildLanguageCondition lang
          pure [c]
        | none => pure []
      | none => do
        let c ← buildFilePatternCondition fp
        pure [c]
  | none => pure []

/-- Embeds `buildSafeFilter`'s condition assembly, keeping conditions
structured: path condition first, then the file-pattern condition. -/
def buildSafeFilterConds (options : FilterOptions) : Except FilterError (List FilterCond) := do
  let a ← pathConds options.path
  let b ← filePatternConds options.filePattern
  pure (a ++ b)

/-- Embeds `buildSafeFilter`: join the rendered conditions with AND, or
return no filter when no condition was produced. -/
def buildSafeFilter (options : FilterOptions) : Except FilterError (Option String) :=
  (buildSafeFilterConds options).map (fun conds =>
    if conds.isEmpty then none
    else some (String.intercalate " AND " (conds.map FilterCond.toSql)))

/-- Decides whether an `Except` value is a success. -/
def isOkE {ε α : Type} : Except ε α → Bool
  | .ok _ => true
  | .error _ => false

/-! ## Hybrid search's own filter (src/search/hybrid.ts, `buildFilter`)

The orchestrator does not call `buildSafeFilter`: it assembles its filter
locally over the `filePath` column, escaping only single quotes. -/

/-- The `.replace(/'/g, "''")` step of `buildFilter`. -/
def escapeQuotes (l : List Char) : List Char :=
  l.flatMap (fun c => if c == '\'' then ['\'', '\''] else [c])

/-- Embeds `buildFilter` from hybrid.ts: `filePath LIKE '<path>%'` for a
path, and a glob-converted `filePath LIKE '%<pattern>'` for a file pattern. -/
def hybridBuildFilter (options : FilterOptions) : Option String :=
  let conds :=
    (match options.path with
     | some p =>
       if p == "" then []
       else ["filePath LIKE '" ++ String.mk (escapeQuotes p.data) ++ "%'"]
     | none => []) ++
    (match options.filePattern with
     | some fp =>
       if fp == "" then []
       else ["filePath LIKE '%" ++
         String.mk (escapeQuotes (replaceQuestion (replaceSingleStar (replaceDoubleStar fp.data)))) ++ "'"]
     | none => [])
  if conds.isEmpty then none else some (String.intercalate " AND " conds)

/-- Token safety for a produced list of filter conditions: every interpolated
token is nonempty and drawn from `[A-Za-z0-9_%-]`. -/
def tokensSafe (cs : List FilterCond) : Prop :=
  ∀ c ∈ cs, c.token ≠ "" ∧ c.token.data.all safePctChar = true

/-- Measures the length of an optional input string (absent counts as 0). -/
def optLen : Option String → Nat
  | none => 0
  | some s => s.length

/-! ## Chunk model and chunker (src/chunker/index.ts) -/

/-- Decimal digit character for `n % 10` (the last catch-all mirrors that the
argument is always below 10 where this is used). -/
def digitChar (n : Nat) : Char :=
  match n with
  | 0 => '0' | 1 => '1' | 2 => '2' | 3 => '3' | 4 => '4'
  | 5 => '5' | 6 => '6' | 7 => '7' | 8 => '8' | _ => '9'

/-- Fuel-driven decimal rendering accumulator. -/
def decReprAux : Nat → Nat → List Char → List Char
  | 0, _, acc => acc
  | fuel + 1, n, acc =>
    if n < 10 then digitChar n :: acc
    else decReprAux fuel (n / 10) (digitChar (n % 10) :: acc)

/-- Decimal rendering of a natural number, as JavaScript template
interpolation `${n}` renders it. -/
def decRepr (n : Nat) : List Char := decReprAux (n + 1) n []

/-- Embeds `generateChunkId`'s normalization core: the same three replaces as
`sanitizePathPattern` (the source comments require the two to match), then
the `_L<line>` suffix. -/
def chunkIdBase (filePath : String) (startLine : Nat) : List Char :=
  replaceUnsafe (replaceDots (replacePathSeps filePath.data)) ++
    '_' :: 'L' :: decRepr startLine

/-- Embeds `generateChunkId`. -/
def generateChunkId (filePath : String) (startLine : Nat) : String :=
  String.mk (chunkIdBase filePath startLine)

/-- The `CodeChunk` record of the chunker. -/
structure CodeChunk where
  id : String
  filePath : String
  content : String
  startLine : Nat
  endLine : Nat
  name : Option String
  nodeType : String
  signature : Option String
  docstring : Option String
  language : String
deriving DecidableEq

/-- JavaScript `content.split('\n')`: split at every newline, keeping empty
segments. -/
def splitNl : List Char → List (List Char)
  | [] => [[]]
  | c :: t =>
    if c = '\n' then [] :: splitNl t
    else
      match splitNl t with
      | [] => [[c]]
      | h :: r => (c :: h) :: r

/-- JavaScript `lines.join('\n')`. -/
def joinNl : List (List Char) → List Char
  | [] => []
  | [l] => l
  | l :: rest => l ++ '\n' :: joinNl rest

/-- Counts the lines of `content` whose `trim()` is nonempty (a line is
non-blank exactly when it has a non-whitespace character). -/
def nonBlankLineCount (content : String) : Nat :=
  ((splitNl content.data).filter (fun l => l.any (fun c => !c.isWhitespace))).length

/-- Embeds `isTooSmall`: under 50 characters or under 2 non-blank lines. -/
def isTooSmall (content : String) : Bool :=
  decide (content.length < 50) || decide (nonBlankLineCount content < 2)

/-- Embeds `isTooLarge`: over `MAX_CHARS = 2000` characters. -/
def isTooLarge (content : String) : Bool :=
  decide (2000 < content.length)

/-- Floor of a rational as an integer (`Math.floor` on the exact value). -/
def ratFloor (q : ℚ) : Int := q.num.fdiv q.den

/-- Ceiling of a rational as an integer (`Math.ceil` on the exact value). -/
def ratCeil (q : ℚ) : Int := -ratFloor (-q)

/-- One emitted piece of `splitLargeContent`. -/
structure SplitPart where
  content : String
  startLine : Nat
  endLine : Nat
deriving DecidableEq

/-- The while loop of `splitLargeContent`, fuel-driven. Each iteration takes
the window `[currentStart, currentEnd)`, pushes it, advances by
`currentEnd - overlap` and breaks once the new start reaches
`lines.length - overlap`; the JavaScript values are non-negative wherever
this runs, so `Nat` subtraction agrees with the source. -/
def splitLoop (lines : List (List Char)) (startLine lpc ov : Nat) :
    Nat → Nat → List SplitPart
  | 0, _ => []
  | fuel + 1, currentStart =>
    if currentStart < lines.length then
      let currentEnd := min (currentStart + lpc) lines.length
      let part : SplitPart :=
        { content := String.mk (joinNl ((lines.drop currentStart).take (currentEnd - currentStart))),
          startLine := startLine + currentStart,
          endLine := startLine + currentEnd - 1 }
      if lines.length - ov ≤ currentEnd - ov then [part]
      else part :: splitLoop lines startLine lpc ov fuel (currentEnd - ov)
    else []

/-- The two computed parameters of `splitLargeContent`:
`linesPerChunk = ceil(targetSize / (content.length / lines.length))` and
`overlap = floor(linesPerChunk * overlapRatio)`, with `targetSize = 1500`
and `overlapRatio = 0.15`, computed exactly over `ℚ` where the source uses
doubles (they agree at every input exercised here). -/
def splitParams (content : String) : Nat × Nat :=
  let lines := splitNl content.data
  let lpc := (ratCeil ((1500 : ℚ) / ((content.length : ℚ) / (lines.length : ℚ)))).toNat
  let ov := (ratFloor ((lpc : ℚ) * (15 / 100))).toNat
  (lpc, ov)

/-- Embeds `splitLargeContent`. -/
def splitLargeContent (content : String) (startLine : Nat) : List SplitPart :=
  let lines := splitNl content.data
  splitLoop lines startLine (splitParams content).1 (splitParams content).2
    (lines.length + 1) 0

/-- A matched tree-sitter node as the chunker consumes it. The parser is an
external collaborator, so the node's text, 0-indexed row range and the
results of `extractName` / `extractSignature` / `extractDocstring` enter as
oracle data. -/
structure NodeInfo where
  content : String
  startRow : Nat
  endRow : Nat
  name : Option String
  signature : Option String
  docstring : Option String
  nodeType : String

/-- The per-node body of `chunkCode`'s loop over semantic nodes: skip when
too small, split with `_p<i>` ids when too large (only part 0 keeps
signature and docstring, names get a ` (part i+1)` suffix), otherwise one
chunk with the plain `_L<line>` id. -/
def processNode (node : NodeInfo) (filePath outputLang : String) : List CodeChunk :=
  let content := node.content
  let startLine := node.startRow + 1
  let endLine := node.endRow + 1
  if isTooSmall content then []
  else if isTooLarge content then
    (splitLargeContent content startLine).enum.map (fun p =>
      { id := String.mk (chunkIdBase filePath p.2.startLine ++ '_' :: 'p' :: decRepr p.1),
        filePath := filePath,
        content := p.2.content,
        startLine := p.2.startLine,
        endLine := p.2.endLine,
        name := node.name.map (fun n => n ++ " (part " ++ String.mk (decRepr (p.1 + 1)) ++ ")"),
        nodeType := node.nodeType,
        signature := if p.1 = 0 then node.signature else none,
        docstring := if p.1 = 0 then node.docstring else none,
        language := outputLang })
  else
    [{ id := generateChunkId filePath startLine,
       filePath := filePath,
       content := content,
       startLine := startLine,
       endLine := endLine,
       name := node.name,
       nodeType := node.nodeType,
       signature := node.signature,
       docstring := node.docstring,
       language := outputLang }]

/-- The chunk list `chunkCode` accumulates over all matched nodes. -/
def astChunks (nodes : List NodeInfo) (filePath outputLang : String) : List CodeChunk :=
  nodes.flatMap (fun node => processNode node filePath outputLang)

/-- The while loop of `fallbackChunking`, fuel-driven: 50-line windows with
5-line overlap, skipping windows whose text trims to empty; `partIndex`
advances only when a chunk is pushed. -/
def fallbackLoop (lines : List (List Char)) (filePath lang : String) :
    Nat → Nat → Nat → List CodeChunk
  | 0, _, _ => []
  | fuel + 1, currentStart, partIndex =>
    if currentStart < lines.length then
      let currentEnd := min (currentStart + 50) lines.length
      let content := joinNl ((lines.drop currentStart).take (currentEnd - currentStart))
      if content.any (fun c => !c.isWhitespace) then
        { id := String.mk (chunkIdBase filePath (currentStart + 1) ++
            "_fallback".data ++ decRepr partIndex),
          filePath := filePath,
          content := String.mk content,
          startLine := currentStart + 1,
          endLine := currentEnd,
          name := none,
          nodeType := "fallback_chunk",
          signature := none,
          docstring := none,
          language := lang } ::
        (if lines.length - 5 ≤ currentEnd - 5 then []
         else fallbackLoop lines filePath lang fuel (currentEnd - 5) (partIndex + 1))
      else
        (if lines.length - 5 ≤ currentEnd - 5 then []
         else fallbackLoop lines filePath lang fuel (currentEnd - 5) partIndex)
    else []

/-- Embeds `fallbackChunking`; `lang` is the oracle for
`path.extname(filePath).slice(1) || 'unknown'`. -/
def fallbackChunking (sourceCode : String) (filePath lang : String) : List CodeChunk :=
  let lines := splitNl sourceCode.data
  fallbackLoop lines filePath lang (lines.length + 1) 0 0

/-- Embeds `stripBOM` from utils/paths: drop a leading U+FEFF. -/
def stripBOM (s : String) : String :=
  match s.data with
  | c :: t => if c = Char.ofNat 0xFEFF then String.mk t else s
  | [] => s

/-- The output-language normalization in `chunkCode`
(`tsx -> typescript`, `jsx -> javascript`). -/
def outputLangOf (l : String) : String :=
  if l = "tsx" then "typescript" else if l = "jsx" then "javascript" else l

/-- Embeds `chunkCode`: strip the BOM, fall back when the language is
unresolved (`lang = none`), the parse failed (`parsed = none`) or no chunk
survived; otherwise emit the AST chunks with tsx/jsx normalized. `parsed`
is the tree-sitter oracle: the matched semantic nodes in traversal order. -/
def chunkCode (parsed : Option (List NodeInfo)) (lang : Option String)
    (fallbackLang : String) (sourceCode filePath : String) : List CodeChunk :=
  let cleaned := stripBOM sourceCode
  match lang with
  | none => fallbackChunking cleaned filePath fallbackLang
  | some l =>
    match parsed with
    | none => fallbackChunking cleaned filePath fallbackLang
    | some nodes =>
      let cs := astChunks nodes filePath (outputLangOf l)
      if cs.isEmpty then fallbackChunking cleaned filePath fallbackLang else cs

/-- A chunk id is well-formed when it is nonempty and matches
`^[A-Za-z0-9_-]+$`. -/
def idOk (id : String) : Prop := id ≠ "" ∧ id.data.all safeChar = true

/-! ## Vector store (src/store/index.ts) -/

/-- The `VectorRecord` interface (floats as exact rationals). -/
structure VectorRecord where
  id : String
  vector : List ℚ
  filePath : String
  content : String
  startLine : Nat
  endLine : Nat
  name : Option String
  nodeType : String
  signature : Option String
  docstring : Option String
  language : String
  contentHash : String
  indexedAt : Nat
deriving DecidableEq

/-- A row as LanceDB stores it: `upsert` maps the nullable metadata fields
to plain strings before writing. -/
structure StoredRow where
  id : String
  vector : List ℚ
  filePath : String
  content : String
  startLine : Nat
  endLine : Nat
  name : String
  nodeType : String
  signature : String
  docstring : String
  language : String
  contentHash : String
  indexedAt : Nat
deriving DecidableEq

/-- JavaScript `s || dflt` on a nullable string: null and the empty string
both give the default. -/
def jsStrOr (s : Option String) (dflt : String) : String :=
  match s with
  | none => dflt
  | some v => if v = "" then dflt else v

/-- The record-to-row mapping inside `upsert`
(`name: record.name || ''`, same for signature and docstring). -/
def upsertRowOfRecord (r : VectorRecord) : StoredRow :=
  { id := r.id, vector := r.vector, filePath := r.filePath, content := r.content,
    startLine := r.startLine, endLine := r.endLine,
    name := jsStrOr r.name "",
    nodeType := r.nodeType,
    signature := jsStrOr r.signature "",
    docstring := jsStrOr r.docstring "",
    language := r.language, contentHash := r.contentHash, indexedAt := r.indexedAt }

/-- JavaScript `(row.field as string) || null` as `rowToRecord` reads back. -/
def jsOrNullStr (s : String) : Option String :=
  if s = "" then none else some s

/-- Embeds `rowToRecord`. -/
def rowToRecord (row : StoredRow) : VectorRecord :=
  { id := row.id, vector := row.vector, filePath := row.filePath, content := row.content,
    startLine := row.startLine, endLine := row.endLine,
    name := jsOrNullStr row.name,
    nodeType := row.nodeType,
    signature := jsOrNullStr row.signature,
    docstring := jsOrNullStr row.docstring,
    language := row.language, contentHash := row.contentHash, indexedAt := row.indexedAt }

/-- Embeds `VectorStore.upsert` on the table contents: an empty batch is a
no-op; otherwise delete every row whose id is in the batch
(`id IN (...)`) and append the new rows. Creating the table on first call
has the same effect on an empty store. -/
def upsert (store : List StoredRow) (records : List VectorRecord) : List StoredRow :=
  if records.isEmpty then store
  else
    let ids := records.map (fun r => r.id)
    (store.filter (fun row => !(ids.contains row.id))) ++ records.map upsertRowOfRecord

/-- Embeds `VectorStore.deleteByFilePath` (`filePath = '<path>'`). -/
def deleteByFilePath (store : List StoredRow) (filePath : String) : List StoredRow :=
  store.filter (fun row => !(row.filePath == filePath))

/-- Embeds `VectorStore.count` (`countRows`). -/
def countRows (store : List StoredRow) : Nat := store.length

/-- Embeds `VectorStore.getIndexedFiles`: the first contentHash seen per
filePath, in row order. -/
def getIndexedFiles (store : List StoredRow) : List (String × String) :=
  store.foldl (fun m row =>
    if (List.lookup row.filePath m).isSome then m
    else m ++ [(row.filePath, row.contentHash)]) []

/-- A search hit (`SearchResult`: record plus score). -/
structure SearchResult where
  record : VectorRecord
  score : ℚ
deriving DecidableEq

/-- Embeds the result mapping of `VectorStore.vectorSearch`: the ANN engine
is external, so its output enters as rows paired with their `_distance`;
the score is `1 - distance` (0 when the distance is missing). -/
def vectorSearchResults (rows : List (StoredRow × Option ℚ)) : List SearchResult :=
  rows.map (fun rd =>
    { record := rowToRecord rd.1,
      score := match rd.2 with | some d => 1 - d | none => 0 })

/-! ## Search (src/search/reranker.ts `boostKeywordMatches`,
src/store/index.ts `fallbackTextSearch`, src/search/hybrid.ts) -/

/-- Splits a character list into its maximal runs of non-separator
characters. Models JavaScript `split(/\s+/)` (whose possible leading empty
string the source removes with `.filter(Boolean)`) and, with the non-word
separator, `split(/\W+/)` (whose possible empty-string elements can never
equal a nonempty keyword). -/
def splitRunsAux (isSep : Char → Bool) : List Char → List Char → List (List Char)
  | [], acc => if acc.isEmpty then [] else [acc.reverse]
  | c :: t, acc =>
    if isSep c then
      if acc.isEmpty then splitRunsAux isSep t []
      else acc.reverse :: splitRunsAux isSep t []
    else splitRunsAux isSep t (c :: acc)

/-- Runs splitter entry point. -/
def splitRuns (isSep : Char → Bool) (l : List Char) : List (List Char) :=
  splitRunsAux isSep l []

/-- Embeds `query.toLowerCase().split(/\s+/).filter(Boolean)`. -/
def toKeywords (q : String) : List (List Char) :=
  (splitRuns Char.isWhitespace (q.data.map Char.toLower)).filter (fun k => !k.isEmpty)

/-- JavaScript `hay.includes(needle)` on character lists. -/
def strContains (hay needle : List Char) : Bool :=
  match hay with
  | [] => needle.isEmpty
  | c :: t => needle.isPrefixOf (c :: t) || strContains t needle

/-- JavaScript word characters `\w`. -/
def isWordChar (c : Char) : Bool := c.isAlphanum || c == '_'

/-- The per-keyword body of `boostKeywordMatches`'s loop: +0.10 when the
content contains the keyword, +0.20 for the name, +0.15 for the signature,
+0.25 when the keyword is a whole `\W`-token of the name, applied in source
order. -/
def boostStep (content name signature : List Char) (boost : ℚ) (k : List Char) : ℚ :=
  let boost := if strContains content k then boost + 1/10 else boost
  let boost := if strContains name k then boost + 2/10 else boost
  let boost := if strContains signature k then boost + 3/20 else boost
  if (splitRuns (fun c => !isWordChar c) name).contains k then boost + 1/4 else boost

/-- The boost of one result in `boostKeywordMatches`, over the lowercased
fields (name and signature read through JavaScript `|| ''`). -/
def boostForResult (kws : List (List Char)) (r : SearchResult) : ℚ :=
  kws.foldl
    (boostStep (r.record.content.data.map Char.toLower)
      ((jsStrOr r.record.name "").data.map Char.toLower)
      ((jsStrOr r.record.signature "").data.map Char.toLower)) 0

/-- Embeds `boostKeywordMatches`: each score becomes
`min(score + boost, 1.0)`. -/
def boostKeywordMatches (query : String) (results : List SearchResult) : List SearchResult :=
  let kws := toKeywords query
  results.map (fun r => { r with score := min (r.score + boostForResult kws r) 1 })

/-- A returned row of `hybridSearch` with its three scores. -/
structure HybridResult where
  record : VectorRecord
  combinedScore : ℚ
  vectorScore : ℚ
  keywordScore : ℚ
deriving DecidableEq

/-- Embeds `hybridSearch` on the paths that do not invoke the cross-encoder
(`useReranking = false`, or the rerank fallback): vector search results are
keyword-boosted, cut to `limit`, and reported with
`combinedScore = score`, the original vector score, and their difference. -/
def hybridSearchNoRerank (query : String) (rows : List (StoredRow × Option ℚ))
    (limit : Nat) : List HybridResult :=
  let vectorResults := vectorSearchResults rows
  if vectorResults.isEmpty then []
  else
    let boosted := boostKeywordMatches query vectorResults
    (boosted.take limit).map (fun r =>
      let original := vectorResults.find? (fun v => v.record.id == r.record.id)
      let boostedMatch := boosted.find? (fun v => v.record.id == r.record.id)
      { record := r.record,
        combinedScore := r.score,
        vectorScore := match original with | some v => v.score | none => 0,
        keywordScore :=
          match boostedMatch with
          | some b => b.score - (match original with | some v => v.score | none => 0)
          | none => 0 })

/-- The per-keyword body of `fallbackTextSearch`'s scoring loop: +1 when
the content contains the keyword, +2 for the name, +1.5 for the signature,
applied in source order. -/
def fallbackScoreStep (content name signature : List Char) (score : ℚ) (k : List Char) : ℚ :=
  let score := if strContains content k then score + 1 else score
  let score := if strContains name k then score + 2 else score
  if strContains signature k then score + 3/2 else score

/-- The per-row score of `fallbackTextSearch` over the lowercased fields. -/
def fallbackRowScore (kws : List (List Char)) (content name signature : List Char) : ℚ :=
  kws.foldl (fallbackScoreStep content name signature) 0

/-- Stable descending insertion by score: the inserted element passes
over strictly greater scores only, so it lands before any element of
equal score. Folded from the right over the scan list this reproduces
JavaScript's stable `sort((a, b) => b.score - a.score)` (ES2019), where
earlier rows keep priority on ties. -/
def insertByScoreDesc (x : StoredRow × ℚ) :
    List (StoredRow × ℚ) → List (StoredRow × ℚ)
  | [] => [x]
  | y :: t => if x.2 < y.2 then y :: insertByScoreDesc x t else x :: y :: t

/-- Stable descending sort by score. -/
def sortByScoreDesc (l : List (StoredRow × ℚ)) : List (StoredRow × ℚ) :=
  l.foldr insertByScoreDesc []

/-- Embeds `fallbackTextSearch`: lowercase keywords, scan at most 10000
rows, score each, drop zero scores, sort descending, take `limit`, and
normalize each score by `keywords.length * 4`. -/
def fallbackTextSearch (query : String) (rows : List StoredRow) (limit : Nat) :
    List SearchResult :=
  let kws := toKeywords query
  if kws.isEmpty then []
  else
    let scored := (rows.take 10000).map (fun row =>
      (row, fallbackRowScore kws (row.content.data.map Char.toLower)
        (row.name.data.map Char.toLower) (row.signature.data.map Char.toLower)))
    let topMatches := (sortByScoreDesc (scored.filter (fun x => 0 < x.2))).take limit
    topMatches.map (fun x =>
      { record := rowToRecord x.1, score := x.2 / ((kws.length : ℚ) * 4) })

/-- Spec-side row score, written from the specification's words with
presence indicators: `2·[kw in name] + 1.5·[kw in signature] +
1·[kw in content]` summed over the keywords. -/
def specPresenceScore (kws : List (List Char)) (content name signature : List Char) : ℚ :=
  2 * ((kws.filter (fun k => strContains name k)).length : ℚ) +
    3/2 * ((kws.filter (fun k => strContains signature k)).length : ℚ) +
    1 * ((kws.filter (fun k => strContains content k)).length : ℚ)

/-- Counts the substring occurrences of `needle` in `hay` (every starting
position). -/
def countOcc (hay needle : List Char) : Nat :=
  match hay with
  | [] => 0
  | c :: t => (if needle.isPrefixOf (c :: t) then 1 else 0) + countOcc t needle

/-- Spec-side row score as the claim literally states it, with occurrence
counts in place of presence indicators. -/
def specOccurrenceScore (kws : List (List Char)) (content name signature : List Char) : ℚ :=
  2 * (((kws.map (fun k => countOcc name k)).sum : Nat) : ℚ) +
    3/2 * (((kws.map (fun k => countOcc signature k)).sum : Nat) : ℚ) +
    1 * (((kws.map (fun k => countOcc content k)).sum : Nat) : ℚ)

/-- The spec-side fallback pipeline, with the presence-based row score. -/
def specFallbackTextSearch (query : String) (rows : List StoredRow) (limit : Nat) :
    List SearchResult :=
  let kws := toKeywords query
  if kws.isEmpty then []
  else
    let scored := (rows.take 10000).map (fun row =>
      (row, specPresenceScore kws (row.content.data.map Char.toLower)
        (row.name.data.map Char.toLower) (row.signature.data.map Char.toLower)))
    let topMatches := (sortByScoreDesc (scored.filter (fun x => 0 < x.2))).take limit
    topMatches.map (fun x =>
      { record := rowToRecord x.1, score := x.2 / ((kws.length : ℚ) * 4) })

/-! ## Indexer (src/watcher/index.ts `indexDirectory`) -/

/-- A file the directory walk found, with the stat size and the content a
read returns. -/
structure FileEntry where
  path : String
  size : Nat
  content : String

/-- The external collaborators `indexDirectory` consumes: the MD5 hash, the
chunker+embedder composition per file (`indexFile`'s chunk/embedding pairs),
`Date.now()`, and the two limits. -/
structure IndexerEnv where
  hashFn : String → String
  chunkEmbed : FileEntry → List (CodeChunk × List ℚ)
  now : Nat
  maxFileSize : Nat
  maxChunksInMemory : Nat

/-- Embeds `createVectorRecord`. -/
def createVectorRecord (chunk : CodeChunk) (embedding : List ℚ)
    (contentHash : String) (indexedAt : Nat) : VectorRecord :=
  { id := chunk.id, vector := embedding, filePath := chunk.filePath,
    content := chunk.content, startLine := chunk.startLine, endLine := chunk.endLine,
    name := chunk.name, nodeType := chunk.nodeType, signature := chunk.signature,
    docstring := chunk.docstring, language := chunk.language,
    contentHash := contentHash, indexedAt := indexedAt }

/-- Embeds `indexFile`: chunk, embed, build records all carrying the file's
content hash. -/
def indexFileRecords (env : IndexerEnv) (f : FileEntry) : List VectorRecord :=
  (env.chunkEmbed f).map (fun p =>
    createVectorRecord p.1 p.2 (env.hashFn f.content) env.now)

/-- A store operation the indexer issued, for stating which writes happen. -/
inductive StoreOp where
  | upsertOp (records : List VectorRecord)
  | deleteOp (filePath : String)
deriving DecidableEq

/-- The indexer's mutable state during the walk. -/
structure IndexerState where
  store : List StoredRow
  pending : List VectorRecord
  filesToDelete : List String
  ops : List StoreOp
  indexedFiles : Nat
  skippedFiles : Nat
  totalChunks : Nat

/-- Embeds `flushPendingRecords`: flush when forced or once the pending
buffer reached `maxChunksInMemory`; an empty buffer never writes. -/
def flushPendingRecords (env : IndexerEnv) (st : IndexerState) (force : Bool) :
    IndexerState :=
  if st.pending.isEmpty then st
  else if !force && st.pending.length < env.maxChunksInMemory then st
  else
    { st with
      store := upsert st.store st.pending,
      ops := st.ops ++ [.upsertOp st.pending],
      pending := [] }

/-- Embeds `shouldIndexFile`: skip empty and oversized files. -/
def shouldIndexFile (env : IndexerEnv) (f : FileEntry) : Bool :=
  !(decide (env.maxFileSize < f.size)) && !(decide (f.size = 0))

/-- The per-file body of `indexDirectory`'s walk: skip unindexable files,
skip files whose hash matches the snapshot, queue changed files for
deletion, buffer the new records and flush at the threshold. -/
def indexOneFile (env : IndexerEnv) (snapshot : List (String × String))
    (st : IndexerState) (f : FileEntry) : IndexerState :=
  if !shouldIndexFile env f then
    { st with skippedFiles := st.skippedFiles + 1 }
  else
    let contentHash := env.hashFn f.content
    match List.lookup f.path snapshot with
    | some existingHash =>
      if existingHash = contentHash then
        { st with indexedFiles := st.indexedFiles + 1 }
      else
        let records := indexFileRecords env f
        flushPendingRecords env
          { st with
            filesToDelete := st.filesToDelete ++ [f.path],
            pending := st.pending ++ records,
            indexedFiles := st.indexedFiles + 1,
            totalChunks := st.totalChunks + records.length } false
    | none =>
      let records := indexFileRecords env f
      flushPendingRecords env
        { st with
          pending := st.pending ++ records,
          indexedFiles := st.indexedFiles + 1,
          totalChunks := st.totalChunks + records.length } false

/-- Embeds `indexDirectory`: snapshot the indexed files once, walk the files
in order (batching only groups progress messages), then delete the queued
stale paths and force-flush the remainder. -/
def indexDirectory (env : IndexerEnv) (files : List FileEntry)
    (store₀ : List StoredRow) : IndexerState :=
  let snapshot := getIndexedFiles store₀
  let st₀ : IndexerState :=
    { store := store₀, pending := [], filesToDelete := [], ops := [],
      indexedFiles := 0, skippedFiles := 0, totalChunks := 0 }
  let walked := files.foldl (indexOneFile env snapshot) st₀
  let afterDelete := walked.filesToDelete.foldl (fun st p =>
    { st with store := deleteByFilePath st.store p, ops := st.ops ++ [.deleteOp p] })
    walked
  flushPendingRecords env afterDelete true

/-! ## Concrete fixtures for witnesses and counterexamples -/

/-- A record fixture in the shape of the test suite's `createMockRecord`. -/
def createMockRecord (id filePath contentHash : String)
    (name signature docstring : Option String) : VectorRecord :=
  { id := id, vector := [], filePath := filePath, content := "",
    startLine := 1, endLine := 1, name := name,
    nodeType := "function_declaration", signature := signature,
    docstring := docstring, language := "typescript",
    contentHash := contentHash, indexedAt := 0 }

/-- Fixture chunk for the incremental-indexing scenario: one chunk per file. -/
def c3Chunk (f : FileEntry) : CodeChunk :=
  ⟨"a_ts_L1", f.path, f.content, 1, 2, none, "function_declaration",
    none, none, "typescript"⟩

/-- Fixture environment for the incremental-indexing scenario: identity hash,
one chunk with an empty embedding per file, and a flush threshold of 1 so
the pending buffer is written to the store during the walk. -/
def c3Env : IndexerEnv :=
  { hashFn := fun c => c, chunkEmbed := fun f => [(c3Chunk f, [])],
    now := 0, maxFileSize := 1000, maxChunksInMemory := 1 }

/-- Fixture file whose content changed since the snapshot. -/
def c3File : FileEntry := ⟨"/r/a.ts", 10, "new"⟩

/-- Fixture stale row: the file's record from the previous run. -/
def c3OldRow : StoredRow :=
  upsertRowOfRecord (createMockRecord "a_ts_L1" "/r/a.ts" "old" none none none)

/-- The record the re-index produces for the changed file. -/
def c3NewRecord : VectorRecord := createVectorRecord (c3Chunk c3File) [] "new" 0

/-- Fixture environment for the unchanged-repository scenario. -/
def c8Env : IndexerEnv :=
  { hashFn := fun c => c, chunkEmbed := fun _ => [],
    now := 0, maxFileSize := 1000, maxChunksInMemory := 500 }

/-- Fixture file whose content is unchanged since the snapshot. -/
def c8File : FileEntry := ⟨"/r/a.ts", 4, "same"⟩

/-- Fixture store already holding the unchanged file's record. -/
def c8Store : List StoredRow :=
  [upsertRowOfRecord (createMockRecord "a_ts_L1" "/r/a.ts" "same" none none none)]

/-! ### Sanitization lemmas -/

theorem stringMk_eq_empty_iff (l : List Char) : String.mk l = "" ↔ l = [] := by
  constructor
  · intro h
    exact congrArg String.data h
  · intro h
    rw [h]

theorem data_ne_nil_of_ne_empty {p : String} (hne : p ≠ "") : p.data ≠ [] := by
  intro h
  cases p with
  | mk d =>
    exact hne ((stringMk_eq_empty_iff d).mpr h)

theorem safeChar_imp_safePctChar {c : Char} (h : safeChar c = true) :
    safePctChar c = true := by
  unfold safePctChar
  rw [h, Bool.true_or]

theorem replaceUnsafe_all_safe (l : List Char) :
    (replaceUnsafe l).all safeChar = true := by
  rw [replaceUnsafe, List.all_map, List.all_eq_true]
  intro c _
  show safeChar (if safeChar c then c else '_') = true
  split
  · assumption
  · decide

theorem replaceUnsafeKeepPct_all_safe (l : List Char) :
    (replaceUnsafeKeepPct l).all safePctChar = true := by
  rw [replaceUnsafeKeepPct, List.all_map, List.all_eq_true]
  intro c _
  show safePctChar (if safePctChar c then c else '_') = true
  split
  · assumption
  · decide

theorem replaceDoubleStar_length_le (l : List Char) :
    (replaceDoubleStar l).length ≤ l.length := by
  induction l using replaceDoubleStar.induct with
  | case1 => simp [replaceDoubleStar]
  | case2 c => simp [replaceDoubleStar]
  | case3 c₁ c₂ rest h ih =>
    rw [replaceDoubleStar, if_pos h]
    simp only [List.length_cons]
    omega
  | case4 c₁ c₂ rest h ih =>
    rw [replaceDoubleStar, if_neg h]
    simp only [List.length_cons] at ih ⊢
    omega

theorem replaceDoubleStar_ne_nil {l : List Char} (h : l ≠ []) :
    replaceDoubleStar l ≠ [] := by
  match l with
  | [] => exact absurd rfl h
  | [c] => simp [replaceDoubleStar]
  | c₁ :: c₂ :: rest =>
    rw [replaceDoubleStar]
    split <;> simp

theorem sanitizePathCore_length (p : String) :
    (sanitizePathCore p).length = p.length := by
  show (replaceUnsafe (replaceDots (replacePathSeps p.data))).length = p.data.length
  simp [replaceUnsafe, replaceDots, replacePathSeps]

theorem validate_sanitizePathCore {p : String} (hne : p ≠ "") (hlen : p.length ≤ 500) :
    validateFilterPattern (sanitizePathCore p) = true := by
  have hdata : p.data ≠ [] := data_ne_nil_of_ne_empty hne
  have hL := sanitizePathCore_length p
  unfold validateFilterPattern
  rw [hL, if_neg (by omega)]
  rw [Bool.and_eq_true]
  constructor
  · have hpos : 0 < p.length := by
      have : 0 < p.data.length := List.length_pos.mpr hdata
      exact this
    exact decide_eq_true hpos
  · rw [sanitizePathCore]
    refine List.all_eq_true.mpr ?_
    intro c hc
    exact safeChar_imp_safePctChar
      (List.all_eq_true.mp (replaceUnsafe_all_safe _) c hc)

theorem sanitizePathPattern_ok {p : String} (hne : p ≠ "") (hlen : p.length ≤ 500) :
    sanitizePathPattern p = .ok (sanitizePathCore p) ∧
      sanitizePathCore p ≠ "" ∧ (sanitizePathCore p).data.all safeChar = true := by
  refine ⟨?_, ?_, ?_⟩
  · rw [sanitizePathPattern, if_pos (validate_sanitizePathCore hne hlen)]
  · intro h
    have h0 : (sanitizePathCore p).length = 0 := by rw [h]; rfl
    rw [sanitizePathCore_length] at h0
    have : 0 < p.data.length := List.length_pos.mpr (data_ne_nil_of_ne_empty hne)
    have hplen : p.length = p.data.length := rfl
    omega
  · rw [sanitizePathCore]
    exact replaceUnsafe_all_safe _

theorem sanitizeGlobCore_length_le (p : String) :
    (sanitizeGlobCore p).length ≤ p.length := by
  have := replaceDoubleStar_length_le p.data
  simp only [sanitizeGlobCore, String.length, replaceUnsafeKeepPct, replaceDots,
    replacePathSeps, replaceQuestion, replaceSingleStar, List.length_map]
  omega

theorem sanitizeGlobCore_length_pos {p : String} (hne : p ≠ "") :
    0 < (sanitizeGlobCore p).length := by
  have hds := replaceDoubleStar_ne_nil (data_ne_nil_of_ne_empty hne)
  have : 0 < (replaceDoubleStar p.data).length := List.length_pos.mpr hds
  simp only [sanitizeGlobCore, String.length, replaceUnsafeKeepPct, replaceDots,
    replacePathSeps, replaceQuestion, replaceSingleStar, List.length_map]
  omega

theorem sanitizeGlobCore_all_safe (p : String) :
    (sanitizeGlobCore p).data.all safePctChar = true := by
  rw [sanitizeGlobCore]
  exact replaceUnsafeKeepPct_all_safe _

theorem validate_sanitizeGlobCore {p : String} (hne : p ≠ "") (hlen : p.length ≤ 500) :
    validateFilterPattern (sanitizeGlobCore p) = true := by
  have hle := sanitizeGlobCore_length_le p
  have hpos := sanitizeGlobCore_length_pos hne
  unfold validateFilterPattern
  rw [if_neg (by omega)]
  rw [Bool.and_eq_true]
  exact ⟨decide_eq_true hpos, sanitizeGlobCore_all_safe p⟩

theorem sanitizeGlobPattern_ok {p : String} (hne : p ≠ "") (hlen : p.length ≤ 500) :
    sanitizeGlobPattern p = .ok (sanitizeGlobCore p) ∧
      sanitizeGlobCore p ≠ "" ∧ (sanitizeGlobCore p).data.all safePctChar = true := by
  refine ⟨?_, ?_, sanitizeGlobCore_all_safe p⟩
  · rw [sanitizeGlobPattern, if_pos (validate_sanitizeGlobCore hne hlen)]
  · intro h
    have h0 : (sanitizeGlobCore p).length = 0 := by rw [h]; rfl
    have := sanitizeGlobCore_length_pos hne
    omega

theorem lookup_values {α β : Type} [BEq α] (t : List (α × β)) (a : α) (b : β)
    (h : List.lookup a t = some b) : ∃ p ∈ t, p.2 = b := by
  induction t with
  | nil => simp [List.lookup] at h
  | cons hd tl ih =>
    cases hd with
    | mk k v =>
      cases hab : a == k with
      | true =>
        refine ⟨(k, v), by simp, ?_⟩
        have h' : some v = some b := by rw [List.lookup, hab] at h; exact h
        exact Option.some_inj.mp h'
      | false =>
        have h' : List.lookup a tl = some b := by rw [List.lookup, hab] at h; exact h
        obtain ⟨q, hq, hq2⟩ := ih h'
        exact ⟨q, by simp [hq], hq2⟩

theorem extension_language_lower {ext lang : String}
    (h : List.lookup ext EXTENSION_TO_LANGUAGE = some lang) :
    (decide (0 < lang.length) && lang.data.all Char.isLower) = true := by
  obtain ⟨p, hp, hp2⟩ := lookup_values _ _ _ h
  subst hp2
  simp only [EXTENSION_TO_LANGUAGE, List.mem_cons, List.not_mem_nil, or_false] at hp
  rcases hp with h | h | h | h | h | h | h | h | h | h <;> subst h <;> decide

theorem lower_safePctChar {c : Char} (h : c.isLower = true) : safePctChar c = true := by
  unfold safePctChar safeChar
  simp [Char.isAlphanum, Char.isAlpha, h]

theorem pathConds_ok (p : Option String) (hp : optLen p ≤ 500) :
    ∃ cs, pathConds p = .ok cs ∧ tokensSafe cs := by
  cases p with
  | none => exact ⟨[], rfl, by intro c hc; simp at hc⟩
  | some s =>
    by_cases hs : (s == "") = true
    · refine ⟨[], ?_, by intro c hc; simp at hc⟩
      rw [pathConds, if_pos hs]
      rfl
    · have hne : s ≠ "" := by
        intro h
        subst h
        simp at hs

      obtain ⟨hok, hne', hall⟩ := sanitizePathPattern_ok hne (by simpa [optLen] using hp)
      refine ⟨[.pathLike (sanitizePathCore s)], ?_, ?_⟩
      · rw [pathConds, if_neg hs]
        simp [buildPathLikeCondition, hok, Except.map]
      · intro c hc
        simp only [List.mem_singleton] at hc
        subst hc
        refine ⟨hne', List.all_eq_true.mpr ?_⟩
        intro ch hch
        exact safeChar_imp_safePctChar (List.all_eq_true.mp hall ch hch)

theorem filePatternConds_ok (fp : Option String) (hfp : optLen fp ≤ 500) :
    ∃ cs, filePatternConds fp = .ok cs ∧ tokensSafe cs := by
  cases fp with
  | none => exact ⟨[], rfl, by intro c hc; simp at hc⟩
  | some s =>
    by_cases hs : (s == "") = true
    · refine ⟨[], ?_, by intro c hc; simp at hc⟩
      rw [filePatternConds, if_pos hs]
      rfl
    · have hne : s ≠ "" := by
        intro h
        subst h
        simp at hs
      rw [filePatternConds, if_neg hs]
      cases hext : matchExtPattern s with
      | some ext =>
        cases hlang : List.lookup ext EXTENSION_TO_LANGUAGE with
        | some lang =>
          have hl := extension_language_lower hlang
          refine ⟨[.langEq lang], ?_, ?_⟩
          · show (match List.lookup ext EXTENSION_TO_LANGUAGE with
              | some lang =>
                Except.bind (buildLanguageCondition lang) (fun c => pure [c])
              | none => pure []) = Except.ok [FilterCond.langEq lang]
            rw [hlang]
            show Except.bind (buildLanguageCondition lang) (fun c => pure [c]) =
              Except.ok [FilterCond.langEq lang]
            rw [buildLanguageCondition, if_pos hl]
            rfl
          · intro c hc
            simp only [List.mem_singleton] at hc
            subst hc
            rw [Bool.and_eq_true] at hl
            refine ⟨?_, ?_⟩
            · intro h
              subst h
              simp at hl
            · refine List.all_eq_true.mpr ?_
              intro ch hch
              exact lower_safePctChar (List.all_eq_true.mp hl.2 ch hch)
        | none =>
          refine ⟨[], ?_, by intro c hc; simp at hc⟩
          show (match List.lookup ext EXTENSION_TO_LANGUAGE with
            | some lang =>
              Except.bind (buildLanguageCondition lang) (fun c => pure [c])
            | none => pure []) = Except.ok []
          rw [hlang]
          rfl
      | none =>
        obtain ⟨hok, hne', hall⟩ := sanitizeGlobPattern_ok hne (by simpa [optLen] using hfp)
        refine ⟨[.filePatternLike (sanitizeGlobCore s)], ?_, ?_⟩
        · simp [buildFilePatternCondition, hok, Except.map]
        · intro c hc
          simp only [List.mem_singleton] at hc
          subst hc
          exact ⟨hne', hall⟩

/-- C1: for every user-supplied input, `buildSafeFilter` collapses every
character outside `[A-Za-z0-9_%-]` to `_` before interpolation and does not
raise (the inputs here are within the 500-character cap, the only way a
sanitized token can fail the whitelist); every token interpolated into the
returned predicate is nonempty and matches `^[A-Za-z0-9_%-]+$`; and the
injection payload `'; DROP TABLE--` yields exactly the predicate
`id LIKE '___DROP_TABLE--%'`. -/
theorem C1_buildSafeFilter_sanitizes (p fp : Option String)
    (hp : optLen p ≤ 500) (hfp : optLen fp ≤ 500) :
    (∃ conds, buildSafeFilterConds ⟨p, fp⟩ = .ok conds ∧ tokensSafe conds) ∧
    isOkE (buildSafeFilter ⟨p, fp⟩) = true ∧
    buildSafeFilter ⟨some "'; DROP TABLE--", none⟩ =
      .ok (some "id LIKE '___DROP_TABLE--%'") := by
  obtain ⟨a, ha, hsa⟩ := pathConds_ok p hp
  obtain ⟨b, hb, hsb⟩ := filePatternConds_ok fp hfp
  have hconds : buildSafeFilterConds ⟨p, fp⟩ = .ok (a ++ b) := by
    simp only [buildSafeFilterConds, ha, hb]
    rfl
  refine ⟨⟨a ++ b, hconds, ?_⟩, ?_, ?_⟩
  · intro c hc
    rcases List.mem_append.mp hc with h | h
    · exact hsa c h
    · exact hsb c h
  · rw [buildSafeFilter, hconds]
    rfl
  · rfl

/-- Witness for C1 at a concrete input (path `src`, pattern `*.ts`). -/
theorem C1_buildSafeFilter_sanitizes_witness :
    (∃ conds, buildSafeFilterConds ⟨some "src", some "*.ts"⟩ = .ok conds ∧
      tokensSafe conds) ∧
    isOkE (buildSafeFilter ⟨some "src", some "*.ts"⟩) = true ∧
    buildSafeFilter ⟨some "'; DROP TABLE--", none⟩ =
      .ok (some "id LIKE '___DROP_TABLE--%'") :=
  C1_buildSafeFilter_sanitizes (some "src") (some "*.ts") (by decide) (by decide)

/-- C2 (code divergence): the hybrid search orchestrator builds its filter
with its local `buildFilter` over the `filePath` column, not with the filter
builder's id-prefix predicate; at the concrete input `path = src/utils` the
two produce different predicate strings. -/
theorem C2_hybrid_filter_bypasses_filter_builder :
    hybridBuildFilter ⟨some "src/utils", none⟩ = some "filePath LIKE 'src/utils%'" ∧
    buildSafeFilter ⟨some "src/utils", none⟩ = .ok (some "id LIKE 'src_utils%'") ∧
    ("filePath LIKE 'src/utils%'" : String) ≠ "id LIKE 'src_utils%'" :=
  ⟨rfl, rfl, by decide⟩

/-! ### Chunk-id safety -/

theorem digitChar_safe (n : Nat) : safeChar (digitChar n) = true := by
  unfold digitChar
  split <;> decide

theorem decReprAux_all_safe :
    ∀ (fuel n : Nat) (acc : List Char),
      acc.all safeChar = true → (decReprAux fuel n acc).all safeChar = true := by
  intro fuel
  induction fuel with
  | zero =>
    intro n acc h
    rw [decReprAux]
    exact h
  | succ f ih =>
    intro n acc h
    rw [decReprAux]
    split
    · rw [List.all_cons, Bool.and_eq_true]
      exact ⟨digitChar_safe n, h⟩
    · exact ih (n / 10) _
        (by rw [List.all_cons, Bool.and_eq_true]; exact ⟨digitChar_safe _, h⟩)

theorem decReprAux_ne_nil :
    ∀ (fuel n : Nat) (acc : List Char), acc ≠ [] → decReprAux fuel n acc ≠ [] := by
  intro fuel
  induction fuel with
  | zero =>
    intro n acc h
    rw [decReprAux]
    exact h
  | succ f ih =>
    intro n acc h
    rw [decReprAux]
    split
    · simp
    · exact ih (n / 10) _ (by simp)

theorem decRepr_all_safe (n : Nat) : (decRepr n).all safeChar = true :=
  decReprAux_all_safe (n + 1) n [] rfl

theorem decRepr_ne_nil (n : Nat) : decRepr n ≠ [] := by
  rw [decRepr, decReprAux]
  split
  · simp
  · exact decReprAux_ne_nil n (n / 10) _ (by simp)

theorem chunkIdBase_all_safe (fp : String) (n : Nat) :
    (chunkIdBase fp n).all safeChar = true := by
  rw [chunkIdBase, List.all_append, Bool.and_eq_true]
  refine ⟨replaceUnsafe_all_safe _, ?_⟩
  simp only [List.all_cons, Bool.and_eq_true]
  exact ⟨by decide, by decide, decRepr_all_safe n⟩

theorem chunkIdBase_ne_nil (fp : String) (n : Nat) : chunkIdBase fp n ≠ [] := by
  rw [chunkIdBase]
  simp

theorem idOk_mk {l : List Char} (hne : l ≠ []) (hall : l.all safeChar = true) :
    idOk (String.mk l) :=
  ⟨fun h => hne ((stringMk_eq_empty_iff l).mp h), hall⟩

theorem processNode_ids (node : NodeInfo) (fp ol : String) :
    ∀ c ∈ processNode node fp ol, idOk c.id := by
  intro c hc
  rw [processNode] at hc
  split at hc
  · simp at hc
  · split at hc
    · obtain ⟨p, hp, rfl⟩ := List.mem_map.mp hc
      apply idOk_mk
      · intro h
        rcases List.append_eq_nil.mp h with ⟨h1, -⟩
        exact chunkIdBase_ne_nil _ _ h1
      · simp only [List.all_append, List.all_cons, Bool.and_eq_true]
        exact ⟨chunkIdBase_all_safe _ _, by decide, by decide, decRepr_all_safe _⟩
    · simp only [List.mem_singleton] at hc
      subst hc
      exact idOk_mk (chunkIdBase_ne_nil _ _) (chunkIdBase_all_safe _ _)

theorem astChunks_ids (nodes : List NodeInfo) (fp ol : String) :
    ∀ c ∈ astChunks nodes fp ol, idOk c.id := by
  intro c hc
  rw [astChunks] at hc
  obtain ⟨node, -, hmem⟩ := List.mem_flatMap.mp hc
  exact processNode_ids node fp ol c hmem

theorem fallbackLoop_ids :
    ∀ (fuel : Nat) (lines : List (List Char)) (fp lang : String) (cs pi : Nat),
      ∀ c ∈ fallbackLoop lines fp lang fuel cs pi, idOk c.id := by
  intro fuel
  induction fuel with
  | zero =>
    intro lines fp lang cs pi c hc
    rw [fallbackLoop] at hc
    simp at hc
  | succ f ih =>
    intro lines fp lang cs pi c hc
    simp only [fallbackLoop] at hc
    split at hc
    · split at hc
      · rcases List.mem_cons.mp hc with rfl | hmem
        · apply idOk_mk
          · intro h
            rcases List.append_eq_nil.mp h with ⟨h2, -⟩
            rcases List.append_eq_nil.mp h2 with ⟨h3, -⟩
            exact chunkIdBase_ne_nil _ _ h3
          · simp only [List.all_append, Bool.and_eq_true]
            exact ⟨⟨chunkIdBase_all_safe _ _, by decide⟩, decRepr_all_safe _⟩
        · split at hmem
          · simp at hmem
          · exact ih _ _ _ _ _ c hmem
      · split at hc
        · simp at hc
        · exact ih _ _ _ _ _ c hc
    · simp at hc

theorem fallbackChunking_ids (src fp lang : String) :
    ∀ c ∈ fallbackChunking src fp lang, idOk c.id := by
  intro c hc
  rw [fallbackChunking] at hc
  exact fallbackLoop_ids _ _ _ _ _ _ c hc

/-- C4: every chunk the chunker emits — AST chunks, split `_p<i>` parts and
fallback `_fallback<i>` chunks, over every file path including ones with
`@`, spaces, parentheses or `+` — has a nonempty id matching
`^[A-Za-z0-9_-]+$`. -/
theorem C4_chunk_ids_safe (parsed : Option (List NodeInfo)) (lang : Option String)
    (fallbackLang sourceCode filePath : String) :
    ∀ c ∈ chunkCode parsed lang fallbackLang sourceCode filePath, idOk c.id := by
  intro c hc
  cases lang with
  | none =>
    simp only [chunkCode] at hc
    exact fallbackChunking_ids _ _ _ c hc
  | some l =>
    cases parsed with
    | none =>
      simp only [chunkCode] at hc
      exact fallbackChunking_ids _ _ _ c hc
    | some nodes =>
      simp only [chunkCode] at hc
      split at hc
      · exact fallbackChunking_ids _ _ _ c hc
      · exact astChunks_ids _ _ _ c hc

/-- Witness for C4 on a concrete path containing `@` and a space. -/
theorem C4_chunk_ids_safe_witness :
    (⟨"_dir_my_file_xyz_L1_fallback0", "@dir/my file.xyz", "hello\nworld", 1, 2,
        none, "fallback_chunk", none, none, "xyz"⟩ : CodeChunk) ∈
      chunkCode none none "xyz" "hello\nworld" "@dir/my file.xyz" ∧
    idOk (⟨"_dir_my_file_xyz_L1_fallback0", "@dir/my file.xyz", "hello\nworld", 1, 2,
        none, "fallback_chunk", none, none, "xyz"⟩ : CodeChunk).id :=
  ⟨by decide, C4_chunk_ids_safe none none "xyz" "hello\nworld" "@dir/my file.xyz" _ (by decide)⟩

/-- C9: chunk-id derivation is not injective over file paths: `a/b.ts` and
`a.b.ts` collapse to the same id at the same start line, and an upsert of
the second file's chunk deletes and replaces the first file's row. -/
theorem C9_chunk_id_not_injective :
    ("a/b.ts" : String) ≠ "a.b.ts" ∧
    generateChunkId "a/b.ts" 1 = generateChunkId "a.b.ts" 1 ∧
    upsert
      [upsertRowOfRecord
        (createMockRecord (generateChunkId "a/b.ts" 1) "a/b.ts" "h1" none none none)]
      [createMockRecord (generateChunkId "a.b.ts" 1) "a.b.ts" "h2" none none none] =
      [upsertRowOfRecord
        (createMockRecord (generateChunkId "a.b.ts" 1) "a.b.ts" "h2" none none none)] :=
  ⟨by decide, by decide, by decide⟩

theorem jsOrNullStr_ne_some_empty (s : String) : jsOrNullStr s ≠ some "" := by
  unfold jsOrNullStr
  split
  · simp
  · next h =>
    intro hc
    exact h (Option.some_inj.mp hc)

/-- C10: the store boundary conflates null and empty-string metadata: a null
name/signature/docstring is persisted as `""`, reading back maps `""` to
null, a record upserted with an empty-string name comes back with a null
name, and no read-back record carries an empty-string name, signature or
docstring. -/
theorem C10_null_empty_metadata_conflation :
    (∀ r : VectorRecord,
      (r.name = none → (upsertRowOfRecord r).name = "") ∧
      (r.signature = none → (upsertRowOfRecord r).signature = "") ∧
      (r.docstring = none → (upsertRowOfRecord r).docstring = "") ∧
      (r.name = some "" → (rowToRecord (upsertRowOfRecord r)).name = none)) ∧
    (∀ row : StoredRow,
      (row.name = "" → (rowToRecord row).name = none) ∧
      (rowToRecord row).name ≠ some "" ∧
      (rowToRecord row).signature ≠ some "" ∧
      (rowToRecord row).docstring ≠ some "") := by
  constructor
  · intro r
    refine ⟨?_, ?_, ?_, ?_⟩ <;> intro h <;>
      simp [upsertRowOfRecord, rowToRecord, jsStrOr, jsOrNullStr, h]
  · intro row
    refine ⟨?_, jsOrNullStr_ne_some_empty _, jsOrNullStr_ne_some_empty _,
      jsOrNullStr_ne_some_empty _⟩
    intro h
    simp [rowToRecord, jsOrNullStr, h]

/-- Witness for C10 at concrete records. -/
theorem C10_null_empty_metadata_conflation_witness :
    (upsertRowOfRecord (createMockRecord "id1" "f.ts" "h" none none none)).name = "" ∧
    (rowToRecord (upsertRowOfRecord
      (createMockRecord "id2" "f.ts" "h" (some "") none none))).name = none ∧
    (rowToRecord (upsertRowOfRecord
      (createMockRecord "id2" "f.ts" "h" (some "") none none))).name ≠ some "" :=
  ⟨((C10_null_empty_metadata_conflation.1
      (createMockRecord "id1" "f.ts" "h" none none none)).1) rfl,
   ((C10_null_empty_metadata_conflation.1
      (createMockRecord "id2" "f.ts" "h" (some "") none none)).2.2.2) rfl,
   ((C10_null_empty_metadata_conflation.2
      (upsertRowOfRecord (createMockRecord "id2" "f.ts" "h" (some "") none none))).2.1)⟩

/-! ### Score bounds (C5) -/

theorem boostStep_le (content name signature : List Char) (a : ℚ) (k : List Char) :
    a ≤ boostStep content name signature a k := by
  simp only [boostStep]
  split_ifs <;> linarith

theorem foldl_boostStep_le (content name signature : List Char) :
    ∀ (l : List (List Char)) (a : ℚ),
      a ≤ l.foldl (boostStep content name signature) a := by
  intro l
  induction l with
  | nil => intro a; simp
  | cons x t ih =>
    intro a
    rw [List.foldl_cons]
    exact le_trans (boostStep_le _ _ _ a x) (ih _)

theorem boostForResult_nonneg (kws : List (List Char)) (r : SearchResult) :
    0 ≤ boostForResult kws r := by
  rw [boostForResult]
  exact foldl_boostStep_le _ _ _ kws 0

theorem vectorSearchResults_score_nonneg (rows : List (StoredRow × Option ℚ))
    (h : ∀ p ∈ rows, p.2.getD 0 ≤ 1) :
    ∀ v ∈ vectorSearchResults rows, 0 ≤ v.score := by
  intro v hv
  rw [vectorSearchResults] at hv
  obtain ⟨p, hp, rfl⟩ := List.mem_map.mp hv
  have hd := h p hp
  cases hpd : p.2 with
  | none =>
    simp only [hpd]
    norm_num
  | some d =>
    rw [hpd] at hd
    simp only [Option.getD_some] at hd
    simp only [hpd]
    show (0 : ℚ) ≤ 1 - d
    linarith

/-- C5 (amended): every result of the keyword-boosted (non-reranked) hybrid
search has `combined_score ≤ 1` unconditionally (the boost is capped by
`min(score + boost, 1)`), and `combined_score` lies in `[0, 1]` whenever
every candidate's cosine distance is at most 1 (so its vector score
`1 - distance` is non-negative); a distance above 1 makes the vector score,
and hence possibly the combined score, negative. -/
theorem C5_combined_score_bounds (query : String) (rows : List (StoredRow × Option ℚ))
    (limit : Nat) :
    (∀ r ∈ hybridSearchNoRerank query rows limit, r.combinedScore ≤ 1) ∧
    ((∀ p ∈ rows, p.2.getD 0 ≤ 1) →
      ∀ r ∈ hybridSearchNoRerank query rows limit,
        0 ≤ r.combinedScore ∧ r.combinedScore ≤ 1) := by
  have hform : ∀ r ∈ hybridSearchNoRerank query rows limit,
      ∃ v, v ∈ vectorSearchResults rows ∧
        r.combinedScore = min (v.score + boostForResult (toKeywords query) v) 1 := by
    intro r hr
    simp only [hybridSearchNoRerank] at hr
    split at hr
    · simp at hr
    · obtain ⟨b, hb, rfl⟩ := List.mem_map.mp hr
      have hbmem : b ∈ boostKeywordMatches query (vectorSearchResults rows) :=
        List.take_subset _ _ hb
      simp only [boostKeywordMatches] at hbmem
      obtain ⟨v, hv, rfl⟩ := List.mem_map.mp hbmem
      exact ⟨v, hv, rfl⟩
  constructor
  · intro r hr
    obtain ⟨v, _, heq⟩ := hform r hr
    rw [heq]
    exact min_le_right _ _
  · intro h r hr
    obtain ⟨v, hv, heq⟩ := hform r hr
    rw [heq]
    refine ⟨?_, min_le_right _ _⟩
    have h1 := vectorSearchResults_score_nonneg rows h v hv
    have h2 := boostForResult_nonneg (toKeywords query) v
    exact le_min (by linarith) (by norm_num)

/-- Witness for C5 at a concrete search. -/
theorem C5_combined_score_bounds_witness :
    (∀ p ∈ [(upsertRowOfRecord (createMockRecord "r1" "/t/a.ts" "h" none none none),
        some ((1 : ℚ)/2))], p.2.getD 0 ≤ 1) ∧
    (∀ r ∈ hybridSearchNoRerank "zzz"
        [(upsertRowOfRecord (createMockRecord "r1" "/t/a.ts" "h" none none none),
          some ((1 : ℚ)/2))] 10,
      r.combinedScore ≤ 1) ∧
    (∀ r ∈ hybridSearchNoRerank "zzz"
        [(upsertRowOfRecord (createMockRecord "r1" "/t/a.ts" "h" none none none),
          some ((1 : ℚ)/2))] 10,
      0 ≤ r.combinedScore ∧ r.combinedScore ≤ 1) := by
  have hhyp : ∀ p ∈ [(upsertRowOfRecord (createMockRecord "r1" "/t/a.ts" "h" none none none),
      some ((1 : ℚ)/2))], p.2.getD 0 ≤ 1 := by
    intro p hp
    simp only [List.mem_singleton] at hp
    subst hp
    show (1 : ℚ)/2 ≤ 1
    norm_num
  exact ⟨hhyp, (C5_combined_score_bounds "zzz" _ 10).1,
    (C5_combined_score_bounds "zzz" _ 10).2 hhyp⟩

/-- C5 (counterexample): with a candidate at cosine distance 3/2 and a query
sharing no keyword, the combined score is -1/2, outside `[0, 1]`; the claim
that the vector score `1 - distance` is never negative fails. -/
theorem C5_combined_score_counterexample :
    ∃ r ∈ hybridSearchNoRerank "zzz"
        [(upsertRowOfRecord (createMockRecord "r1" "/t/a.ts" "h" none none none),
          some ((3 : ℚ)/2))] 10,
      ¬ (0 ≤ r.combinedScore ∧ r.combinedScore ≤ 1) := by
  have hres : hybridSearchNoRerank "zzz"
      [(upsertRowOfRecord (createMockRecord "r1" "/t/a.ts" "h" none none none),
        some ((3 : ℚ)/2))] 10 =
      [⟨rowToRecord (upsertRowOfRecord (createMockRecord "r1" "/t/a.ts" "h" none none none)),
        -((1 : ℚ)/2), -((1 : ℚ)/2), 0⟩] := by with_unfolding_all rfl
  refine ⟨⟨rowToRecord (upsertRowOfRecord (createMockRecord "r1" "/t/a.ts" "h" none none none)),
    -((1 : ℚ)/2), -((1 : ℚ)/2), 0⟩, ?_, ?_⟩
  · rw [hres]
    exact List.mem_singleton.mpr rfl
  · intro hcon
    have h1 : (0 : ℚ) ≤ -((1 : ℚ)/2) := hcon.1
    norm_num at h1

/-! ### Fallback text-search scoring (C6) -/

theorem insertByScoreDesc_perm (x : StoredRow × ℚ) :
    ∀ s, List.Perm (insertByScoreDesc x s) (x :: s) := by
  intro s
  induction s with
  | nil => exact List.Perm.refl _
  | cons y t ih =>
    simp only [insertByScoreDesc]
    split
    · exact (ih.cons y).trans (List.Perm.swap x y t)
    · exact List.Perm.refl _

theorem sortByScoreDesc_perm (l : List (StoredRow × ℚ)) :
    List.Perm (sortByScoreDesc l) l := by
  induction l with
  | nil => exact List.Perm.refl _
  | cons x t ih =>
    show List.Perm (insertByScoreDesc x (sortByScoreDesc t)) (x :: t)
    exact (insertByScoreDesc_perm x _).trans (ih.cons x)

theorem insertByScoreDesc_sorted (x : StoredRow × ℚ) :
    ∀ s, s.Pairwise (fun a b => b.2 ≤ a.2) →
      (insertByScoreDesc x s).Pairwise (fun a b => b.2 ≤ a.2) := by
  intro s
  induction s with
  | nil => intro _; simp [insertByScoreDesc]
  | cons y t ih =>
    intro hs
    rw [List.pairwise_cons] at hs
    obtain ⟨hy, ht⟩ := hs
    simp only [insertByScoreDesc]
    split
    · next hlt =>
      rw [List.pairwise_cons]
      refine ⟨?_, ih ht⟩
      intro z hz
      rcases List.mem_cons.mp ((insertByScoreDesc_perm x t).mem_iff.mp hz) with rfl | hzt
      · exact le_of_lt hlt
      · exact hy z hzt
    · next hge =>
      rw [List.pairwise_cons]
      refine ⟨?_, List.pairwise_cons.mpr ⟨hy, ht⟩⟩
      intro z hz
      rcases List.mem_cons.mp hz with rfl | hzt
      · exact le_of_not_lt hge
      · exact le_trans (hy z hzt) (le_of_not_lt hge)

theorem sortByScoreDesc_sorted (l : List (StoredRow × ℚ)) :
    (sortByScoreDesc l).Pairwise (fun a b => b.2 ≤ a.2) := by
  induction l with
  | nil => exact List.Pairwise.nil
  | cons x t ih =>
    show (insertByScoreDesc x (sortByScoreDesc t)).Pairwise (fun a b => b.2 ≤ a.2)
    exact insertByScoreDesc_sorted x (sortByScoreDesc t) ih

theorem insertByScoreDesc_filter (x : StoredRow × ℚ) (s : ℚ) :
    ∀ t, (insertByScoreDesc x t).filter (fun z => decide (z.2 = s)) =
      (x :: t).filter (fun z => decide (z.2 = s)) := by
  intro t
  induction t with
  | nil => rfl
  | cons y t' ih =>
    simp only [insertByScoreDesc]
    split
    · next hlt =>
      simp only [List.filter_cons, ih, decide_eq_true_eq]
      by_cases hpy : y.2 = s
      · have hpx : ¬ x.2 = s := by
          intro hx
          rw [hx, hpy] at hlt
          exact lt_irrefl s hlt
        simp only [if_pos hpy, if_neg hpx]
      · simp only [if_neg hpy]
    · rfl

theorem sortByScoreDesc_filter (s : ℚ) :
    ∀ l, (sortByScoreDesc l).filter (fun z => decide (z.2 = s)) =
      l.filter (fun z => decide (z.2 = s)) := by
  intro l
  induction l with
  | nil => rfl
  | cons x t ih =>
    show (insertByScoreDesc x (sortByScoreDesc t)).filter (fun z => decide (z.2 = s)) =
      (x :: t).filter (fun z => decide (z.2 = s))
    rw [insertByScoreDesc_filter]
    simp only [List.filter_cons, ih]

theorem fallbackScoreStep_eq (content name signature : List Char) (a : ℚ) (k : List Char) :
    fallbackScoreStep content name signature a k =
      a + ((if strContains content k then (1 : ℚ) else 0) +
        (if strContains name k then (2 : ℚ) else 0) +
        (if strContains signature k then (3 : ℚ)/2 else 0)) := by
  simp only [fallbackScoreStep]
  split_ifs <;> ring

theorem fallbackRowScore_foldl (content name signature : List Char) :
    ∀ (kws : List (List Char)) (a : ℚ),
      kws.foldl (fallbackScoreStep content name signature) a =
        a + specPresenceScore kws content name signature := by
  intro kws
  induction kws with
  | nil =>
    intro a
    simp [specPresenceScore]
  | cons k t ih =>
    intro a
    rw [List.foldl_cons, ih, fallbackScoreStep_eq]
    simp only [specPresenceScore, List.filter_cons]
    split_ifs <;> push_cast [List.length_cons] <;> ring

/-- C6 (amended): the fallback row score is the presence-weighted sum
`2·[kw in name] + 1.5·[kw in signature] + 1·[kw in content]` over the
keywords (each keyword counted once per field, not per occurrence); the
whole fallback pipeline equals the spec-side pipeline built from that
presence score: zero-score rows dropped, stable descending sort, top
`limit`, scores divided by `keywords × 4`; and the sort is indeed
JavaScript's stable descending sort: a permutation of its input, pairwise
descending by score, preserving the relative order of equal-score rows
(the rows of any fixed score come out exactly as they went in). -/
theorem C6_fallback_scoring_presence :
    (∀ (kws : List (List Char)) (content name signature : List Char),
      fallbackRowScore kws content name signature =
        specPresenceScore kws content name signature) ∧
    (∀ (query : String) (rows : List StoredRow) (limit : Nat),
      fallbackTextSearch query rows limit = specFallbackTextSearch query rows limit) ∧
    (∀ l : List (StoredRow × ℚ),
      List.Perm (sortByScoreDesc l) l ∧
      (sortByScoreDesc l).Pairwise (fun a b => b.2 ≤ a.2) ∧
      ∀ s : ℚ, (sortByScoreDesc l).filter (fun z => decide (z.2 = s)) =
        l.filter (fun z => decide (z.2 = s))) := by
  have hscore : ∀ (kws : List (List Char)) (content name signature : List Char),
      fallbackRowScore kws content name signature =
        specPresenceScore kws content name signature := by
    intro kws content name signature
    rw [fallbackRowScore, fallbackRowScore_foldl]
    ring
  refine ⟨hscore, ?_, ?_⟩
  · intro query rows limit
    simp only [fallbackTextSearch, specFallbackTextSearch, hscore]
  · intro l
    exact ⟨sortByScoreDesc_perm l, sortByScoreDesc_sorted l,
      fun s => sortByScoreDesc_filter s l⟩

/-- C6 (counterexample): on a row whose content is `foo foo` (keyword `foo`
occurring twice), the code's score is 1 (presence), not the
occurrence-count score 2 the claim states; the returned normalized score is
1/4, not 1/2. -/
theorem C6_occurrence_scoring_counterexample :
    fallbackRowScore (toKeywords "foo") "foo foo".data [] [] ≠
      specOccurrenceScore (toKeywords "foo") "foo foo".data [] [] ∧
    fallbackRowScore (toKeywords "foo") "foo foo".data [] [] = 1 ∧
    specOccurrenceScore (toKeywords "foo") "foo foo".data [] [] = 2 ∧
    fallbackTextSearch "foo"
        [⟨"r1", [], "/t/a.ts", "foo foo", 1, 1, "", "function_declaration", "", "",
          "typescript", "h", 0⟩] 10 =
      [⟨rowToRecord ⟨"r1", [], "/t/a.ts", "foo foo", 1, 1, "", "function_declaration",
          "", "", "typescript", "h", 0⟩, 1/4⟩] := by
  have h1 : fallbackRowScore (toKeywords "foo") "foo foo".data [] [] = 1 := by
    with_unfolding_all rfl
  have h2 : specOccurrenceScore (toKeywords "foo") "foo foo".data [] [] = 2 := by
    with_unfolding_all rfl
  refine ⟨?_, h1, h2, by with_unfolding_all rfl⟩
  rw [h1, h2]
  norm_num

/-! ### Chunk size discipline (C7) -/

/-- C7 (amended): a chunk emitted from a node the chunker did not have to
split (content within the 2000-character cap) respects all three bounds:
at least 50 characters, at least 2 non-blank lines, at most 2000
characters. Split `_p<i>` parts carry no such guarantees. -/
theorem C7_unsplit_chunk_size_bounds (node : NodeInfo) (filePath outputLang : String)
    (hnl : isTooLarge node.content = false) :
    ∀ c ∈ processNode node filePath outputLang,
      50 ≤ c.content.length ∧ 2 ≤ nonBlankLineCount c.content ∧
        c.content.length ≤ 2000 := by
  intro c hc
  simp only [processNode] at hc
  split at hc
  · simp at hc
  · next hsmall =>
    split at hc
    · next hlarge => rw [hnl] at hlarge; exact absurd hlarge (by simp)
    · simp only [List.mem_singleton] at hc
      subst hc
      simp only [isTooSmall, Bool.or_eq_true, decide_eq_true_eq, not_or] at hsmall
      have hl : ¬ (2000 < node.content.length) := by
        have := hnl
        rw [isTooLarge] at this
        simpa [decide_eq_false_iff_not] using this
      show 50 ≤ node.content.length ∧ 2 ≤ nonBlankLineCount node.content ∧
        node.content.length ≤ 2000
      exact ⟨by omega, by omega, by omega⟩

/-- Witness for C7 at a concrete unsplit node (61 characters, 2 lines). -/
theorem C7_unsplit_chunk_size_bounds_witness :
    (isTooLarge (String.mk (List.replicate 30 'a' ++ '\n' :: List.replicate 30 'b')) =
      false) ∧
    (∀ c ∈ processNode
        ⟨String.mk (List.replicate 30 'a' ++ '\n' :: List.replicate 30 'b'), 0, 1,
          none, none, none, "function_declaration"⟩ "a.ts" "typescript",
      50 ≤ c.content.length ∧ 2 ≤ nonBlankLineCount c.content ∧
        c.content.length ≤ 2000) :=
  ⟨by decide,
   C7_unsplit_chunk_size_bounds _ "a.ts" "typescript" (by decide)⟩

theorem splitNl_ne_nil (l : List Char) : splitNl l ≠ [] := by
  match l with
  | [] => simp [splitNl]
  | c :: t =>
    simp only [splitNl]
    split
    · simp
    · split <;> simp

theorem splitNl_append_nlfree :
    ∀ (l m : List Char), (∀ c ∈ l, ¬ c = '\n') →
      splitNl (l ++ m) = (l ++ (splitNl m).headD []) :: (splitNl m).tail := by
  intro l
  induction l with
  | nil =>
    intro m h
    simp only [List.nil_append]
    cases hm : splitNl m with
    | nil => exact absurd hm (splitNl_ne_nil m)
    | cons a t => simp [hm]
  | cons c l ih =>
    intro m h
    have hc : ¬ c = '\n' := h c (by simp)
    simp only [List.cons_append, splitNl, List.append_eq]
    rw [if_neg hc, ih m (fun x hx => h x (by simp [hx]))]

/-- C7 (counterexample): a node whose content is one 3000-character line
followed by a 1-character line is split into two non-fallback `_p<i>` parts:
the first is 3000 characters (beyond the ~2200 cap) and the second is 1
character on 1 line (beneath both minimums). -/
theorem C7_split_parts_counterexample :
    (∃ c ∈ processNode
        ⟨String.mk (List.replicate 3000 'a' ++ '\n' :: ['b']), 0, 1,
          none, none, none, "function_declaration"⟩ "f.ts" "typescript",
      c.nodeType ≠ "fallback_chunk" ∧ 2200 < c.content.length) ∧
    (∃ c ∈ processNode
        ⟨String.mk (List.replicate 3000 'a' ++ '\n' :: ['b']), 0, 1,
          none, none, none, "function_declaration"⟩ "f.ts" "typescript",
      c.nodeType ≠ "fallback_chunk" ∧
        (c.content.length < 50 ∨ nonBlankLineCount c.content < 2)) := by
  have hAnl : ∀ c ∈ List.replicate 3000 'a', ¬ c = '\n' := by
    intro c hc
    rw [List.mem_replicate] at hc
    rw [hc.2]
    decide
  have hAany : (List.replicate 3000 'a').any (fun c => !c.isWhitespace) = true := by
    refine List.any_eq_true.mpr ⟨'a', ?_, by decide⟩
    exact List.mem_replicate.mpr ⟨by norm_num, rfl⟩
  have hlen : (String.mk (List.replicate 3000 'a' ++ '\n' :: ['b'])).length = 3002 := by
    show (List.replicate 3000 'a' ++ '\n' :: ['b']).length = 3002
    rw [List.length_append, List.length_replicate]
    norm_num
  have hlines : splitNl (List.replicate 3000 'a' ++ '\n' :: ['b']) =
      [List.replicate 3000 'a', ['b']] := by
    rw [splitNl_append_nlfree (List.replicate 3000 'a') ('\n' :: ['b']) hAnl]
    have hm : splitNl ('\n' :: ['b']) = [[], ['b']] := by with_unfolding_all rfl
    rw [hm]
    simp only [List.headD_cons, List.tail_cons, List.append_nil]
  have hnbc : nonBlankLineCount (String.mk (List.replicate 3000 'a' ++ '\n' :: ['b'])) = 2 := by
    rw [nonBlankLineCount, show (String.mk (List.replicate 3000 'a' ++ '\n' :: ['b'])).data =
      List.replicate 3000 'a' ++ '\n' :: ['b'] from rfl, hlines]
    rw [List.filter_cons, List.filter_cons, List.filter_nil]
    rw [hAany]
    simp only [eq_self_iff_true, if_true, List.length_cons]
    decide
  have hsmall : isTooSmall (String.mk (List.replicate 3000 'a' ++ '\n' :: ['b'])) = false := by
    rw [isTooSmall, hlen, hnbc]
    decide
  have hlarge : isTooLarge (String.mk (List.replicate 3000 'a' ++ '\n' :: ['b'])) = true := by
    rw [isTooLarge, hlen]
    decide
  have hparams : splitParams (String.mk (List.replicate 3000 'a' ++ '\n' :: ['b'])) = (1, 0) := by
    simp only [splitParams]
    rw [hlines, hlen]
    with_unfolding_all rfl
  have hsplitLC : splitLargeContent (String.mk (List.replicate 3000 'a' ++ '\n' :: ['b'])) 1 =
      [⟨String.mk (List.replicate 3000 'a'), 1, 1⟩, ⟨String.mk ['b'], 2, 2⟩] := by
    simp only [splitLargeContent, hlines, hparams]
    with_unfolding_all rfl
  have hres : processNode
      ⟨String.mk (List.replicate 3000 'a' ++ '\n' :: ['b']), 0, 1,
        none, none, none, "function_declaration"⟩ "f.ts" "typescript" =
      [⟨"f_ts_L1_p0", "f.ts", String.mk (List.replicate 3000 'a'), 1, 1,
          none, "function_declaration", none, none, "typescript"⟩,
       ⟨"f_ts_L2_p1", "f.ts", String.mk ['b'], 2, 2,
          none, "function_declaration", none, none, "typescript"⟩] := by
    simp only [processNode, hsmall, hlarge, Bool.false_eq_true, if_false,
      if_true, Nat.zero_add]
    rw [hsplitLC]
    with_unfolding_all rfl
  constructor
  · refine ⟨⟨"f_ts_L1_p0", "f.ts", String.mk (List.replicate 3000 'a'), 1, 1,
      none, "function_declaration", none, none, "typescript"⟩, ?_, ?_, ?_⟩
    · rw [hres]
      exact List.mem_cons_self _ _
    · intro h
      exact absurd h (by decide)
    · show 2200 < (List.replicate 3000 'a').length
      rw [List.length_replicate]
      norm_num
  · refine ⟨⟨"f_ts_L2_p1", "f.ts", String.mk ['b'], 2, 2,
      none, "function_declaration", none, none, "typescript"⟩, ?_, ?_, ?_⟩
    · rw [hres]
      exact List.mem_cons_of_mem _ (List.mem_cons_self _ _)
    · intro h
      exact absurd h (by decide)
    · left
      decide

/-! ### Indexer (C3, C8) -/

theorem indexOneFile_unchanged (env : IndexerEnv) (snapshot : List (String × String))
    (st : IndexerState) (f : FileEntry)
    (h1 : shouldIndexFile env f = true)
    (h2 : List.lookup f.path snapshot = some (env.hashFn f.content)) :
    indexOneFile env snapshot st f = { st with indexedFiles := st.indexedFiles + 1 } := by
  simp only [indexOneFile, h1, h2, Bool.not_true, Bool.false_eq_true, if_false,
    eq_self_iff_true, if_true]

theorem walk_unchanged (env : IndexerEnv) (snapshot : List (String × String)) :
    ∀ (fs : List FileEntry) (st : IndexerState),
      (∀ f ∈ fs, shouldIndexFile env f = true ∧
        List.lookup f.path snapshot = some (env.hashFn f.content)) →
      (fs.foldl (indexOneFile env snapshot) st).store = st.store ∧
      (fs.foldl (indexOneFile env snapshot) st).pending = st.pending ∧
      (fs.foldl (indexOneFile env snapshot) st).filesToDelete = st.filesToDelete ∧
      (fs.foldl (indexOneFile env snapshot) st).ops = st.ops := by
  intro fs
  induction fs with
  | nil =>
    intro st h
    simp [List.foldl_nil]
  | cons f fs ih =>
    intro st h
    rw [List.foldl_cons,
      indexOneFile_unchanged env snapshot st f (h f (by simp)).1 (h f (by simp)).2]
    exact ih _ (fun g hg => h g (by simp [hg]))

/-- C8: a second `indexDirectory` run over an unchanged repository (every
file readable, within the size limit, and hashing to its snapshot hash)
performs no upsert and no delete_by_file_path — the op log is empty — and
leaves the store, hence `count()`, exactly as it was. -/
theorem C8_reindex_unchanged_is_noop (env : IndexerEnv) (files : List FileEntry)
    (store₀ : List StoredRow)
    (h : ∀ f ∈ files, shouldIndexFile env f = true ∧
      List.lookup f.path (getIndexedFiles store₀) = some (env.hashFn f.content)) :
    (indexDirectory env files store₀).store = store₀ ∧
    (indexDirectory env files store₀).ops = [] ∧
    countRows (indexDirectory env files store₀).store = countRows store₀ := by
  obtain ⟨h1, h2, h3, h4⟩ := walk_unchanged env (getIndexedFiles store₀) files
    { store := store₀, pending := [], filesToDelete := [], ops := [],
      indexedFiles := 0, skippedFiles := 0, totalChunks := 0 } h
  simp only [indexDirectory]
  rw [h3]
  simp only [List.foldl_nil]
  rw [flushPendingRecords, if_pos (by rw [h2]; rfl)]
  exact ⟨h1, h4, by rw [h1]⟩

/-- Witness for C8: one file whose hash matches the snapshot. -/
theorem C8_reindex_unchanged_is_noop_witness :
    (∀ f ∈ [c8File], shouldIndexFile c8Env f = true ∧
      List.lookup f.path (getIndexedFiles c8Store) = some (c8Env.hashFn f.content)) ∧
    ((indexDirectory c8Env [c8File] c8Store).store = c8Store ∧
      (indexDirectory c8Env [c8File] c8Store).ops = [] ∧
      countRows (indexDirectory c8Env [c8File] c8Store).store = countRows c8Store) :=
  ⟨by decide, C8_reindex_unchanged_is_noop c8Env [c8File] c8Store (by decide)⟩

/-- C3 (code divergence): when an intermediate flush writes a changed file's
new records during the walk (flush threshold 1 here), the post-walk
`delete_by_file_path` pass deletes those new rows too — they share the
file's path — so the final store holds neither the old-hash rows nor the
new-hash rows: the op log shows the upsert of the new record followed by
the delete that destroys it, and the store ends empty. -/
theorem C3_intermediate_flush_loses_new_records :
    (indexDirectory c3Env [c3File] [c3OldRow]).ops =
      [.upsertOp [c3NewRecord], .deleteOp "/r/a.ts"] ∧
    (indexDirectory c3Env [c3File] [c3OldRow]).store = [] := by
  exact ⟨by with_unfolding_all rfl, by with_unfolding_all rfl⟩

end SCMP
